import Mathlib

/-! Verification of the metrics and persona-scoring core of the AI Speech
Persona Builder backend (`backend/agents/metrics.py` and
`backend/agents/coach_engine.py`).

The embedding is shallow and exact over the rationals: Python floats become
`ℚ` (every arithmetic operation the code performs — `max`, `/`, `*`, `round`
— is modelled exactly), strings become `List Char` in an ASCII model, and the
two regular expressions the code uses (`\b[\w'-]+\b` for word tokens and
`\b<literal>\b` for filler phrases) are modelled by direct left-to-right
scanners with the same leftmost/greedy/backtracking semantics `re.findall`
applies to these particular patterns. -/

/- Batteries marks the rational-number operations irreducible; the witnesses
below evaluate the embedded functions on concrete inputs, which needs these
operations to reduce. -/
attribute [local semireducible] Rat.mul Rat.add Rat.sub Rat.inv Rat.ofScientific

/-! ## Character classes (ASCII model of Python's regex and `str.lower`) -/

/-- Python regex `\w` (ASCII model): letters, digits, underscore. -/
def isWordChar (c : Char) : Bool := c.isAlphanum || c = '_'

/-- The apostrophe character. -/
def apos : Char := Char.ofNat 39

/-- The character class `[\w'-]` of the word-token pattern. -/
def isTokChar (c : Char) : Bool := isWordChar c || c = apos || c = '-'

/-- Word-ness of an optional character; out-of-string positions count as
non-word, as in the regex `\b` semantics. -/
def isW : Option Char → Bool
  | none => false
  | some c => isWordChar c

/-- Regex word boundary `\b` between two adjacent characters (either may be
absent at the ends of the string). -/
def isBoundary (a b : Option Char) : Bool := isW a != isW b

/-- ASCII model of Python's `str.lower`: maps `A`–`Z` to `a`–`z` and leaves
everything else unchanged. -/
def lowerChar : Char → Char
  | 'A' => 'a' | 'B' => 'b' | 'C' => 'c' | 'D' => 'd' | 'E' => 'e'
  | 'F' => 'f' | 'G' => 'g' | 'H' => 'h' | 'I' => 'i' | 'J' => 'j'
  | 'K' => 'k' | 'L' => 'l' | 'M' => 'm' | 'N' => 'n' | 'O' => 'o'
  | 'P' => 'p' | 'Q' => 'q' | 'R' => 'r' | 'S' => 's' | 'T' => 't'
  | 'U' => 'u' | 'V' => 'v' | 'W' => 'w' | 'X' => 'x' | 'Y' => 'y'
  | 'Z' => 'z' | c => c

/-- Lowercase a whole string (list of characters). -/
def lowerL (l : List Char) : List Char := l.map lowerChar

/-! ## The word-token regex `\b[\w'-]+\b`

`re.findall` on this pattern scans left to right; at each position it checks
the `\b` assertion, greedily consumes the maximal run of `[\w'-]` characters,
then backtracks the end of the match to the longest prefix of that run whose
end position satisfies `\b`; on success the scan resumes at the match end,
otherwise one position further right. -/

/-- Backtracking step: given the greedy run `r` and the character right after
it, find the largest match length `k ≤ bound` (trying longest first, as the
greedy `+` does) such that `\b` holds after the `k`-th run character. -/
def tryEnd (r : List Char) (afterRun : Option Char) : Nat → Option Nat
  | 0 => none
  | k + 1 =>
    let nextc : Option Char := if k + 1 < r.length then r.get? (k + 1) else afterRun
    if isBoundary (r.get? k) nextc then some (k + 1) else tryEnd r afterRun k

/-- The scan of `re.findall(r"\b[\w'-]+\b", ·)`: `p` is the character just
before the current position (`none` at the start of the string). The scan
advances at least one character per step, so `fuel = l.length` steps always
suffice; the fuel only makes the recursion structural. -/
def findWordsAux (fuel : Nat) (p : Option Char) (l : List Char) : List (List Char) :=
  match fuel with
  | 0 => []
  | fuel + 1 =>
    match l with
    | [] => []
    | c :: rest =>
      let r := (c :: rest).takeWhile isTokChar
      if r.isEmpty || !isBoundary p (some c) then
        findWordsAux fuel (some c) rest
      else
        match tryEnd r ((c :: rest).drop r.length).head? r.length with
        | none => findWordsAux fuel (some c) rest
        | some k =>
          let kk := max k 1
          r.take kk :: findWordsAux fuel (r.get? (kk - 1)) ((c :: rest).drop kk)

/-- All word tokens of a transcript, i.e. `re.findall(r"\b[\w'-]+\b", t)`. -/
def wordTokens (t : List Char) : List (List Char) := findWordsAux t.length none t

/-! ## Metrics (`backend/agents/metrics.py`) -/

/-- Python's two-argument `max` on exactly-represented floats (written with
an explicit `if` so that it evaluates in the kernel; equal to `max`, see
`ratMax_eq_max`). -/
def ratMax (a b : ℚ) : ℚ := if a ≤ b then b else a

/-- `compute_wpm` from `metrics.py`: words-per-minute with a `0.1`-second
floor on the duration. -/
def compute_wpm (transcript : List Char) (duration_seconds : ℚ) : ℚ :=
  if transcript = [] then 0
  else
    let word_count := (wordTokens transcript).length
    if word_count = 0 then 0
    else ((word_count : ℚ) / ratMax duration_seconds (1 / 10)) * 60

/-- Does `f` occur literally at the head of `l`? (`List.isPrefixOf`,
restated locally to keep the scan self-contained.) -/
def leadsWith : List Char → List Char → Bool
  | [], _ => true
  | _ :: _, [] => false
  | a :: as, b :: bs => a == b && leadsWith as bs

/-- The scan of `re.findall(r"\b" + re.escape(f) + r"\b", ·)` for a nonempty
literal `f`, counting non-overlapping occurrences left to right; `p` is the
character just before the current position. -/
def countOccAux (f : List Char) (fuel : Nat) (p : Option Char) (l : List Char) : Nat :=
  match fuel with
  | 0 => 0
  | fuel + 1 =>
    match l with
    | [] => 0
    | c :: rest =>
      if leadsWith f (c :: rest) && isBoundary p (some c) &&
          isBoundary f.getLast? ((c :: rest).drop f.length).head? then
        1 + countOccAux f fuel f.getLast? ((c :: rest).drop (max f.length 1))
      else
        countOccAux f fuel (some c) rest

/-- Count of the `\b`-bounded occurrences of the nonempty literal `f` in `l`.
The scan advances at least one character per step, so `fuel = l.length`
steps always suffice; the fuel only makes the recursion structural. -/
def countOcc (f : List Char) (l : List Char) : Nat :=
  countOccAux f l.length none l

/-- The default filler list of `metrics.py`. -/
def defaultFillers : List (List Char) :=
  ["um".toList, "uh".toList, "like".toList, "you know".toList]

/-- `count_fillers` from `metrics.py`: lowercases the text, then for each
filler phrase counts whole-word (`\b`-bounded) occurrences of the lowercased
phrase and sums the counts. (All fillers ever passed are nonempty literals,
which is the case the occurrence scan models.) -/
def count_fillers (transcript : List Char) (filler_list : List (List Char)) : Nat :=
  if transcript = [] then 0
  else (filler_list.map (fun f => countOcc (lowerL f) (lowerL transcript))).sum

/-- Python's `round` to an integer: round half to even (banker's rounding),
exact on rationals. -/
def pyRound (q : ℚ) : ℤ :=
  let f := ⌊q⌋
  let r := q - f
  if r < 1 / 2 then f
  else if 1 / 2 < r then f + 1
  else if f % 2 = 0 then f else f + 1

/-- Python's `round(q, n)` for `n` decimal digits, exact on rationals. -/
def roundTo (n : ℕ) (q : ℚ) : ℚ := (pyRound (q * 10 ^ n) : ℚ) / 10 ^ n

/-- The metrics dictionary produced by `compute_metrics`. -/
structure Metrics where
  wpm : ℚ
  totalWords : ℕ
  totalFillers : ℕ
  fillersPerMin : ℚ
deriving DecidableEq

/-- `compute_metrics` from `metrics.py`. -/
def compute_metrics (transcript : List Char) (duration_seconds : ℚ) : Metrics :=
  let words := if transcript = [] then [] else wordTokens transcript
  let total_words := words.length
  let wpm := compute_wpm transcript duration_seconds
  let total_fillers := count_fillers transcript defaultFillers
  let fillers_per_min : ℚ :=
    if duration_seconds ≤ 0 then 0
    else ((total_fillers : ℚ) / ratMax duration_seconds (1 / 10)) * 60
  { wpm := wpm
    totalWords := total_words
    totalFillers := total_fillers
    fillersPerMin := roundTo 2 fillers_per_min }

/-! ## Highlights (`compute_highlights` in `metrics.py`) -/

/-- ASCII model of Python's `str.split()` whitespace characters. -/
def isSpaceChar (c : Char) : Bool :=
  c = ' ' || c = Char.ofNat 9 || c = Char.ofNat 10 || c = Char.ofNat 13 ||
    c = Char.ofNat 11 || c = Char.ofNat 12

/-- Accumulator-based whitespace split: `acc` holds the reversed characters
of the token currently being read. -/
def splitWsAux (acc : List Char) : List Char → List (List Char)
  | [] => if acc = [] then [] else [acc.reverse]
  | c :: rest =>
    if isSpaceChar c then
      if acc = [] then splitWsAux [] rest else acc.reverse :: splitWsAux [] rest
    else splitWsAux (c :: acc) rest

/-- Python's `str.split()`: split on runs of whitespace, dropping empties. -/
def splitWs (l : List Char) : List (List Char) := splitWsAux [] l

/-- The loop of `compute_highlights`: 0-based token index for each
whitespace-split token whose lowercase form is in the lowered filler set.
Each emitted entry of the Python code also carries the constant field
`type = "filler"`, which the model omits. -/
def highlightScan (fl : List (List Char)) : Nat → List (List Char) → List Nat
  | _, [] => []
  | i, w :: ws =>
    if fl.contains (lowerL w) then i :: highlightScan fl (i + 1) ws
    else highlightScan fl (i + 1) ws

/-- `compute_highlights` from `metrics.py`: word indices (over the
whitespace split) of exact, case-insensitive filler-token matches. -/
def compute_highlights (transcript : List Char) (filler_list : List (List Char)) :
    List Nat :=
  if transcript = [] then []
  else highlightScan (filler_list.map lowerL) 0 (splitWs transcript)

/-! ## Persona scorer (`backend/agents/coach_engine.py`) -/

/-- `_score_pace` from `coach_engine.py`. -/
def score_pace (wpm : ℚ) (target_range : List ℚ) : ℚ :=
  if wpm ≤ 0 ∨ target_range = [] ∨ target_range.length ≠ 2 then 0.2
  else
    let low := target_range.getD 0 0
    let high := target_range.getD 1 0
    if low ≤ wpm ∧ wpm ≤ high then 0.95
    else
      let range_width := ratMax (high - low) 1
      let diff := if wpm < low then (low - wpm) / range_width else (wpm - high) / range_width
      if diff ≤ 0.15 then 0.8
      else if diff ≤ 0.5 then 0.5
      else 0.2

/-- `_score_filler_control` from `coach_engine.py`. -/
def score_filler_control (fillers_per_min : ℚ) (max_allowed : ℚ) : ℚ :=
  if max_allowed ≤ 0 then 0.5
  else if fillers_per_min ≤ max_allowed then 0.98
  else
    let ratio := fillers_per_min / max_allowed
    if ratio ≥ 3 then 0.2
    else ratMax 0.2 (0.98 - (ratio - 1) * ((0.98 - 0.2) / 2))

/-- The `targets` sub-dictionary of a persona: either key may be absent. -/
structure PersonaTargets where
  wpm : Option (List ℚ)
  maxFillersPerMin : Option ℚ

/-- A persona as `score_against_persona` reads it: the `targets` key may be
absent (the function also accepts a `None`/falsy persona, modelled as
`none` at the outer `Option`). -/
structure Persona where
  targets : Option PersonaTargets

/-- The metrics argument of `score_against_persona` as an arbitrary
dictionary: either key may be absent (`metrics.get(..., 0.0)`). -/
structure MetricsIn where
  wpm : Option ℚ
  fillersPerMin : Option ℚ

/-- The score dictionary returned by `score_against_persona`, with the four
`dimensions` entries inlined as fields. -/
structure PersonaScore where
  overall : ℚ
  pace : ℚ
  clarity : ℚ
  confidence : ℚ
  fillerControl : ℚ
deriving DecidableEq

/-- `targets.get("wpm", [0, 0])` after `persona.get("targets", {})`. -/
def personaWpmRange (persona : Option Persona) : List ℚ :=
  ((persona.bind Persona.targets).bind PersonaTargets.wpm).getD [0, 0]

/-- `float(targets.get("maxFillersPerMin", 0))` after
`persona.get("targets", {})`. -/
def personaMaxFillers (persona : Option Persona) : ℚ :=
  ((persona.bind Persona.targets).bind PersonaTargets.maxFillersPerMin).getD 0

/-- `score_against_persona` from `coach_engine.py`. -/
def score_against_persona (metrics : MetricsIn) (persona : Option Persona) :
    PersonaScore :=
  let wpm := metrics.wpm.getD 0
  let fillers_per_min := metrics.fillersPerMin.getD 0
  let pace_score := score_pace wpm (personaWpmRange persona)
  let filler_score := score_filler_control fillers_per_min (personaMaxFillers persona)
  let clarity_score : ℚ := 0.9
  let confidence_score := filler_score
  let pace := roundTo 3 pace_score
  let clarity := roundTo 3 clarity_score
  let confidence := roundTo 3 confidence_score
  let fillerControl := roundTo 3 filler_score
  let overall := (pace + clarity + confidence + fillerControl) / 4
  { overall := roundTo 3 overall
    pace := pace
    clarity := clarity
    confidence := confidence
    fillerControl := fillerControl }

/-! ## Reference definitions taken from the specification's wording -/

/-- The pace score exactly as the specification words it (claim C1): outside
the range, the normalized distance is the distance from `wpm` to the
*nearest* of the two bounds, divided by `max(high - low, 1)`. Stated with
explicit `if`s so that it evaluates in the kernel. -/
def paceSpecNearest (wpm : ℚ) (target_range : List ℚ) : ℚ :=
  if wpm ≤ 0 ∨ target_range = [] ∨ target_range.length ≠ 2 then 0.2
  else
    let low := target_range.getD 0 0
    let high := target_range.getD 1 0
    if low ≤ wpm ∧ wpm ≤ high then 0.95
    else
      let dLow := if wpm ≤ low then low - wpm else wpm - low
      let dHigh := if wpm ≤ high then high - wpm else wpm - high
      let nearest := if dLow ≤ dHigh then dLow else dHigh
      let diff := nearest / ratMax (high - low) 1
      if diff ≤ 0.15 then 0.8
      else if diff ≤ 0.5 then 0.5
      else 0.2

/-- The filler-control score exactly as the specification words it
(claim C2): `0.98 - (ratio - 1.0) * (0.78 / 2.0)`, floored at `0.2`. -/
def fillerControlSpec (fillers_per_min : ℚ) (max_allowed : ℚ) : ℚ :=
  if max_allowed ≤ 0 then 0.5
  else if fillers_per_min ≤ max_allowed then 0.98
  else
    let ratio := fillers_per_min / max_allowed
    if ratio ≥ 3 then 0.2
    else ratMax 0.2 (0.98 - (ratio - 1) * (0.78 / 2))


/-- The sample transcript of the specification's end-to-end test. -/
def sampleTranscript : List Char :=
  "hi um my name is pavit and like I want to speak better".toList

/-! ## Helper lemmas -/

theorem ratMax_eq_max (a b : ℚ) : ratMax a b = max a b := by
  rw [ratMax, max_def]

theorem le_pyRound {q : ℚ} {lo : ℤ} (h : (lo : ℚ) ≤ q) : lo ≤ pyRound q := by
  have hf : lo ≤ ⌊q⌋ := Int.le_floor.mpr h
  unfold pyRound
  dsimp only
  split_ifs <;> omega

theorem pyRound_le {q : ℚ} {hi : ℤ} (h : q ≤ (hi : ℚ)) : pyRound q ≤ hi := by
  have hfl : ⌊q⌋ ≤ hi := by
    have := Int.floor_le_floor h
    simpa using this
  have hle : (⌊q⌋ : ℚ) ≤ q := Int.floor_le q
  unfold pyRound
  dsimp only
  split_ifs with h1 h2 h3
  · exact hfl
  · have : (⌊q⌋ : ℚ) < (hi : ℚ) := by linarith
    have : ⌊q⌋ < hi := by exact_mod_cast this
    omega
  · exact hfl
  · have hhalf : (1 : ℚ) / 2 ≤ q - ⌊q⌋ := by linarith
    have : (⌊q⌋ : ℚ) < (hi : ℚ) := by linarith
    have : ⌊q⌋ < hi := by exact_mod_cast this
    omega

theorem roundTo3_bounds {q : ℚ} (h1 : 0.2 ≤ q) (h2 : q ≤ 0.98) :
    0.2 ≤ roundTo 3 q ∧ roundTo 3 q ≤ 0.98 := by
  have hlo : (200 : ℤ) ≤ pyRound (q * 10 ^ 3) := by
    apply le_pyRound
    push_cast
    nlinarith
  have hhi : pyRound (q * 10 ^ 3) ≤ (980 : ℤ) := by
    apply pyRound_le
    push_cast
    nlinarith
  have hlo' : (200 : ℚ) ≤ (pyRound (q * 10 ^ 3) : ℚ) := by exact_mod_cast hlo
  have hhi' : (pyRound (q * 10 ^ 3) : ℚ) ≤ 980 := by exact_mod_cast hhi
  have h1000 : (0 : ℚ) < 10 ^ 3 := by norm_num
  unfold roundTo
  norm_num at hlo' hhi' ⊢
  constructor
  · rw [le_div_iff₀ (by norm_num : (0 : ℚ) < 1000)]
    norm_num
    linarith
  · rw [div_le_iff₀ (by norm_num : (0 : ℚ) < 1000)]
    norm_num
    linarith

theorem score_pace_degenerate (w : ℚ) (h : w ≤ 0 ∨ 1 / 2 < w) :
    score_pace w [0, 0] = 0.2 := by
  rcases h with h | h
  · simp [score_pace, h]
  · have h1 : ¬w ≤ 0 := by linarith
    have h3 : ¬w < 0 := by linarith
    have h2 : ¬((0 : ℚ) ≤ w ∧ w ≤ 0) := fun hc => h1 hc.2
    have h4 : ¬w ≤ (0.15 : ℚ) := by intro hc; norm_num at hc; linarith
    have h5 : ¬w ≤ (0.5 : ℚ) := by intro hc; norm_num at hc; linarith
    simp [score_pace, ratMax, h1, h2, h3, h4, h5]

theorem score_pace_bounds (w : ℚ) (tr : List ℚ) :
    0.2 ≤ score_pace w tr ∧ score_pace w tr ≤ 0.98 := by
  unfold score_pace
  dsimp only
  split_ifs <;> norm_num

theorem score_filler_control_bounds (f m : ℚ) :
    0.2 ≤ score_filler_control f m ∧ score_filler_control f m ≤ 0.98 := by
  unfold score_filler_control
  dsimp only
  rw [ratMax_eq_max]
  split_ifs with h1 h2 h3
  · norm_num
  · norm_num
  · norm_num
  · have hm : 0 < m := lt_of_not_le h1
    have hf : m < f := lt_of_not_le h2
    have hr : 1 < f / m := (one_lt_div hm).mpr hf
    have hnn : 0 ≤ (f / m - 1) * (((0.98 : ℚ) - 0.2) / 2) := by nlinarith
    constructor
    · exact le_max_left _ _
    · apply max_le
      · norm_num
      · linarith

/-! ## Claim theorems -/

/-- C2: the filler-control score is the exact piecewise-linear function of
`fillersPerMin` and `maxAllowed` stated by the specification: `0.5` for a
degenerate target, `0.98` at or below the target, `0.2` from ratio `3.0`
up, and otherwise `0.98 - (ratio - 1.0) * (0.78 / 2.0)` floored at `0.2` —
for every `fillersPerMin` and `maxAllowed`. -/
theorem c2_filler_control_spec (fillers_per_min max_allowed : ℚ) :
    score_filler_control fillers_per_min max_allowed =
      fillerControlSpec fillers_per_min max_allowed := by
  unfold score_filler_control fillerControlSpec
  norm_num

/-- C3: for every metrics dictionary and persona, the dimensions are
`clarity = 0.9` (the rounded constant), `confidence = fillerControl`, with
`pace`/`fillerControl` the two sub-scores of `metrics.wpm` /
`metrics.fillersPerMin` against the persona's targets rounded to 3 decimal
places, and `overall` the arithmetic mean of the four rounded dimensions,
itself rounded to 3 decimal places. -/
theorem c3_composition (m : MetricsIn) (p : Option Persona) :
    (score_against_persona m p).clarity = 0.9 ∧
    (score_against_persona m p).confidence = (score_against_persona m p).fillerControl ∧
    (score_against_persona m p).pace =
      roundTo 3 (score_pace (m.wpm.getD 0) (personaWpmRange p)) ∧
    (score_against_persona m p).fillerControl =
      roundTo 3 (score_filler_control (m.fillersPerMin.getD 0) (personaMaxFillers p)) ∧
    (score_against_persona m p).overall =
      roundTo 3 (((score_against_persona m p).pace + (score_against_persona m p).clarity +
          (score_against_persona m p).confidence + (score_against_persona m p).fillerControl) / 4) := by
  refine ⟨?_, rfl, rfl, rfl, rfl⟩
  show roundTo 3 (0.9 : ℚ) = 0.9
  decide

/-- C4: the code of `compute_wpm` contradicts its own docstring (and the
specification's invariant) at non-positive durations: for a transcript with
word tokens it applies the `0.1`-second floor instead of returning `0.0`,
yielding `600.0` for `("hello", 0)` and `("hello", -5)`. The zero-token
half of the claim does hold: the empty transcript gives `wpm = 0` for every
duration. -/
theorem c4_wpm_at_nonpositive_duration :
    compute_wpm "hello".toList 0 = 600 ∧
    compute_wpm "hello".toList (-5) = 600 ∧
    (∀ d : ℚ, compute_wpm [] d = 0) := by
  refine ⟨by decide, by decide, fun d => rfl⟩

/-- C5 counterexample: on the specification's end-to-end transcript at 30
seconds the code produces 13 word tokens and `wpm = 26.0`, not the claimed
11 and 22.0. -/
theorem c5_word_count_counterexample :
    (compute_metrics sampleTranscript 30).totalWords ≠ 11 ∧
    (compute_metrics sampleTranscript 30).wpm ≠ 22 := by decide

/-- C5 amended: the end-to-end transcript at 30.0 seconds yields
`totalWords = 13`, `totalFillers = 2`, `wpm = (13/30)*60 = 26.0` and
`fillersPerMin = (2/30)*60 = 4.0`. -/
theorem c5_end_to_end :
    compute_metrics sampleTranscript 30 =
      { wpm := 26, totalWords := 13, totalFillers := 2, fillersPerMin := 4 } := by
  decide

/-- C6: `count_fillers` does case-insensitive whole-word matching summed
over the filler list: `"like"` does not match inside `"unlike"`, the
default list finds all four fillers in `"um, uh, like, you know"`, and
upper-casing the transcript does not change the count. -/
theorem c6_count_fillers_examples :
    count_fillers "I unlike this".toList ["like".toList] = 0 ∧
    count_fillers "um, uh, like, you know".toList defaultFillers = 4 ∧
    count_fillers "UM, LIKE like".toList defaultFillers =
      count_fillers "um, like like".toList defaultFillers := by
  refine ⟨by decide, by decide, by decide⟩

/-- C7: for every transcript and duration, `compute_metrics` returns
`totalWords` equal to the number of word-regex tokens (a natural number,
hence nonnegative), `totalFillers` equal to `count_fillers` with the
default list, and `fillersPerMin` equal to `0.0` for non-positive durations
and otherwise `(totalFillers / max(duration, 0.1)) * 60` rounded to 2
decimal places. -/
theorem c7_compute_metrics_fields (t : List Char) (d : ℚ) :
    (compute_metrics t d).totalWords = (wordTokens t).length ∧
    (compute_metrics t d).totalFillers = count_fillers t defaultFillers ∧
    (compute_metrics t d).fillersPerMin =
      (if d ≤ 0 then 0
       else roundTo 2 (((count_fillers t defaultFillers : ℚ) / ratMax d (1 / 10)) * 60)) := by
  refine ⟨?_, rfl, ?_⟩
  · by_cases ht : t = []
    · subst ht; rfl
    · simp only [compute_metrics, if_neg ht]
  · by_cases hd : d ≤ 0
    · rw [if_pos hd]
      show roundTo 2
          (if d ≤ 0 then 0
           else ((count_fillers t defaultFillers : ℚ) / ratMax d (1 / 10)) * 60) = 0
      rw [if_pos hd]
      decide
    · rw [if_neg hd]
      show roundTo 2
          (if d ≤ 0 then 0
           else ((count_fillers t defaultFillers : ℚ) / ratMax d (1 / 10)) * 60) = _
      rw [if_neg hd]

/-- C8 counterexample: a persona with no targets does not always give the
pace dimension 0.2. The missing range defaults to `[0, 0]`, so a metrics
dictionary with `wpm = 0.1 > 0` lands within 15% of the degenerate bound
and scores 0.8. -/
theorem c8_missing_targets_counterexample :
    (score_against_persona { wpm := some (1 / 10), fillersPerMin := none } none).pace = 0.8 ∧
    (score_against_persona { wpm := some (1 / 10), fillersPerMin := none } none).pace ≠ 0.2 := by
  refine ⟨by decide, by decide⟩

/-- C8 amended: with the persona's targets missing or lacking a wpm range,
the range defaults to `[0, 0]` and the pace dimension is 0.2 whenever
`metrics.wpm ≤ 0` or `metrics.wpm > 0.5` (in particular for every realistic
positive wpm); for `0 < wpm ≤ 0.5` the step function can yield 0.8 or 0.5
instead. -/
theorem c8_missing_targets (m : MetricsIn) (p : Option Persona)
    (hp : (p.bind Persona.targets).bind PersonaTargets.wpm = none)
    (hw : m.wpm.getD 0 ≤ 0 ∨ 1 / 2 < m.wpm.getD 0) :
    (score_against_persona m p).pace = 0.2 := by
  have hrange : personaWpmRange p = [0, 0] := by
    unfold personaWpmRange
    rw [hp]
    rfl
  have hpace : (score_against_persona m p).pace =
      roundTo 3 (score_pace (m.wpm.getD 0) (personaWpmRange p)) := rfl
  rw [hpace, hrange, score_pace_degenerate (m.wpm.getD 0) hw]
  decide

/-- C8 witness: a typical metrics dictionary (wpm 150) against an absent
persona scores pace 0.2. -/
theorem c8_missing_targets_witness :
    (score_against_persona { wpm := some 150, fillersPerMin := some 2 } none).pace = 0.2 :=
  c8_missing_targets { wpm := some 150, fillersPerMin := some 2 } none rfl
    (Or.inr (by decide))

/-- C9: every dimension value and the overall value returned by
`score_against_persona` lies in the closed interval [0.2, 0.98], for every
metrics dictionary and every persona. -/
theorem c9_dimension_bounds (m : MetricsIn) (p : Option Persona) :
    (0.2 ≤ (score_against_persona m p).pace ∧ (score_against_persona m p).pace ≤ 0.98) ∧
    (0.2 ≤ (score_against_persona m p).clarity ∧ (score_against_persona m p).clarity ≤ 0.98) ∧
    (0.2 ≤ (score_against_persona m p).confidence ∧
      (score_against_persona m p).confidence ≤ 0.98) ∧
    (0.2 ≤ (score_against_persona m p).fillerControl ∧
      (score_against_persona m p).fillerControl ≤ 0.98) ∧
    (0.2 ≤ (score_against_persona m p).overall ∧ (score_against_persona m p).overall ≤ 0.98) := by
  obtain ⟨hp1, hp2⟩ := score_pace_bounds (m.wpm.getD 0) (personaWpmRange p)
  obtain ⟨hf1, hf2⟩ := score_filler_control_bounds (m.fillersPerMin.getD 0) (personaMaxFillers p)
  obtain ⟨ha1, ha2⟩ := roundTo3_bounds hp1 hp2
  obtain ⟨hb1, hb2⟩ := roundTo3_bounds (show (0.2 : ℚ) ≤ 0.9 by norm_num)
    (show (0.9 : ℚ) ≤ 0.98 by norm_num)
  obtain ⟨hc1, hc2⟩ := roundTo3_bounds hf1 hf2
  have e1 : (score_against_persona m p).pace =
      roundTo 3 (score_pace (m.wpm.getD 0) (personaWpmRange p)) := rfl
  have e2 : (score_against_persona m p).clarity = roundTo 3 (0.9 : ℚ) := rfl
  have e4 : (score_against_persona m p).fillerControl =
      roundTo 3 (score_filler_control (m.fillersPerMin.getD 0) (personaMaxFillers p)) := rfl
  have e3 : (score_against_persona m p).confidence =
      (score_against_persona m p).fillerControl := rfl
  have e5 : (score_against_persona m p).overall =
      roundTo 3 (((score_against_persona m p).pace + (score_against_persona m p).clarity +
        (score_against_persona m p).confidence + (score_against_persona m p).fillerControl) / 4) :=
    rfl
  have hm1 : (0.2 : ℚ) ≤ ((score_against_persona m p).pace + (score_against_persona m p).clarity +
      (score_against_persona m p).confidence + (score_against_persona m p).fillerControl) / 4 := by
    rw [e1, e2, e3, e4]
    norm_num
    linarith
  have hm2 : ((score_against_persona m p).pace + (score_against_persona m p).clarity +
      (score_against_persona m p).confidence + (score_against_persona m p).fillerControl) / 4 ≤
      (0.98 : ℚ) := by
    rw [e1, e2, e3, e4]
    norm_num
    linarith
  obtain ⟨ho1, ho2⟩ := roundTo3_bounds hm1 hm2
  exact ⟨⟨e1 ▸ ha1, e1 ▸ ha2⟩, ⟨e2 ▸ hb1, e2 ▸ hb2⟩,
    ⟨(e3.trans e4) ▸ hc1, (e3.trans e4) ▸ hc2⟩, ⟨e4 ▸ hc1, e4 ▸ hc2⟩, ⟨e5 ▸ ho1, e5 ▸ ho2⟩⟩

/-- C1 counterexample: on the inverted two-element range `[2, 0]` the claim's
"distance to the nearest bound" formula disagrees with the code: at
`wpm = 2.1` the nearest bound is `2` at distance `0.1` (score 0.8 under the
claim's formula), while the code divides `wpm - high = 2.1` by the clamped
width and returns 0.2. -/
theorem c1_nearest_bound_counterexample :
    score_pace (21 / 10) [2, 0] = 0.2 ∧ paceSpecNearest (21 / 10) [2, 0] = 0.8 := by
  refine ⟨by decide, by decide⟩

/-- C1 amended: for every wpm and every target range whose bounds are in
order (`low ≤ high`) — including all invalid/degenerate cases, which both
sides send to 0.2 — the pace score is exactly the specification's step
function over the normalized distance to the nearest bound. (On inverted
ranges the code instead uses `low - wpm` when `wpm < low` and `wpm - high`
otherwise, which need not be the nearest bound.) -/
theorem c1_pace_step_function (wpm : ℚ) (tr : List ℚ)
    (h : ∀ low high, tr = [low, high] → low ≤ high) :
    score_pace wpm tr = paceSpecNearest wpm tr := by
  by_cases hg : wpm ≤ 0 ∨ tr = [] ∨ tr.length ≠ 2
  · unfold score_pace paceSpecNearest
    rw [if_pos hg, if_pos hg]
  · push_neg at hg
    obtain ⟨hw0, hne, hlen⟩ := hg
    rcases tr with _ | ⟨a, tr⟩
    · exact absurd rfl hne
    rcases tr with _ | ⟨b, tr⟩
    · simp at hlen
    rcases tr with _ | ⟨c, tr⟩
    swap
    · simp at hlen
    have hab : a ≤ b := h a b rfl
    have hG : ¬(wpm ≤ 0 ∨ ([a, b] : List ℚ) = [] ∨ ([a, b] : List ℚ).length ≠ 2) := by
      push_neg
      exact ⟨hw0, by simp, by simp⟩
    unfold score_pace paceSpecNearest
    rw [if_neg hG, if_neg hG]
    dsimp only
    simp only [List.getD_cons_zero, List.getD_cons_succ]
    by_cases hin : a ≤ wpm ∧ wpm ≤ b
    · rw [if_pos hin, if_pos hin]
    · rw [if_neg hin, if_neg hin]
      have hout : wpm < a ∨ b < wpm := by
        rcases le_or_lt a wpm with h1 | h1
        · right
          by_contra hc
          push_neg at hc
          exact hin ⟨h1, hc⟩
        · left
          exact h1
      have hdiff : (if wpm < a then (a - wpm) / ratMax (b - a) 1
            else (wpm - b) / ratMax (b - a) 1) =
          (if (if wpm ≤ a then a - wpm else wpm - a) ≤ (if wpm ≤ b then b - wpm else wpm - b)
            then (if wpm ≤ a then a - wpm else wpm - a)
            else (if wpm ≤ b then b - wpm else wpm - b)) / ratMax (b - a) 1 := by
        rcases hout with ho | ho
        · rw [if_pos ho, if_pos (le_of_lt ho), if_pos (by linarith : wpm ≤ b),
            if_pos (by linarith : a - wpm ≤ b - wpm)]
        · rw [if_neg (by linarith : ¬wpm < a), if_neg (by linarith : ¬wpm ≤ a),
            if_neg (by linarith : ¬wpm ≤ b)]
          by_cases hsel : wpm - a ≤ wpm - b
          · have hba : a = b := le_antisymm hab (by linarith)
            rw [if_pos hsel, hba]
          · rw [if_neg hsel]
      rw [hdiff]

/-- C1 witness: at wpm 135 against the ordered range [140, 170] the code and
the specification's nearest-bound step function agree (both give 0.5: the
normalized distance 5/30 exceeds the 0.15 breakpoint). -/
theorem c1_pace_step_function_witness :
    score_pace 135 [140, 170] = paceSpecNearest 135 [140, 170] ∧
    paceSpecNearest 135 [140, 170] = 0.5 := by
  refine ⟨c1_pace_step_function 135 [140, 170] ?_, by decide⟩
  rintro low high he
  injection he with e1 e2
  injection e2 with e3 _
  rw [← e1, ← e3]
  norm_num

theorem lowerChar_eq_space {c : Char} (h : lowerChar c = ' ') : c = ' ' := by
  unfold lowerChar at h
  split at h <;> first | exact h | exact absurd h (by decide)

theorem splitWsAux_no_space :
    ∀ (l acc : List Char), (∀ c ∈ acc, isSpaceChar c = false) →
      ∀ w ∈ splitWsAux acc l, ∀ c ∈ w, isSpaceChar c = false := by
  intro l
  induction l with
  | nil =>
    intro acc hacc w hw c hc
    simp only [splitWsAux] at hw
    split at hw
    · exact absurd hw (List.not_mem_nil w)
    · have hwe : w = acc.reverse := by simpa using hw
      subst hwe
      exact hacc c (by simpa using hc)
  | cons a rest ih =>
    intro acc hacc w hw c hc
    simp only [splitWsAux] at hw
    by_cases hsp : isSpaceChar a
    · rw [if_pos hsp] at hw
      by_cases hacc0 : acc = []
      · rw [if_pos hacc0] at hw
        exact ih [] (by simp) w hw c hc
      · rw [if_neg hacc0] at hw
        rcases List.mem_cons.mp hw with hw | hw
        · subst hw
          exact hacc c (by simpa using hc)
        · exact ih [] (by simp) w hw c hc
    · rw [if_neg hsp] at hw
      refine ih (a :: acc) ?_ w hw c hc
      intro x hx
      rcases List.mem_cons.mp hx with hx | hx
      · subst hx
        simpa using hsp
      · exact hacc x hx

theorem splitWs_no_space {t w : List Char} (hw : w ∈ splitWs t) :
    ∀ c ∈ w, isSpaceChar c = false :=
  splitWsAux_no_space t [] (by simp) w hw

theorem lowerL_ne_of_space {w f : List Char}
    (hw : ∀ c ∈ w, isSpaceChar c = false) (hf : ' ' ∈ f) : lowerL w ≠ f := by
  intro he
  rw [← he] at hf
  obtain ⟨c, hcw, hc⟩ := List.mem_map.mp hf
  have hce : c = ' ' := lowerChar_eq_space hc
  subst hce
  exact absurd (hw ' ' hcw) (by decide)

theorem highlightScan_drop_youknow (ws : List (List Char))
    (hws : ∀ w ∈ ws, ∀ c ∈ w, isSpaceChar c = false) :
    ∀ i, highlightScan (defaultFillers.map lowerL) i ws =
      highlightScan (["um".toList, "uh".toList, "like".toList].map lowerL) i ws := by
  induction ws with
  | nil => intro i; rfl
  | cons w ws ih =>
    intro i
    have hne : lowerL w ≠ "you know".toList :=
      lowerL_ne_of_space (hws w (List.mem_cons_self w ws)) (by decide)
    have h4 : defaultFillers.map lowerL = defaultFillers := by decide
    have h3 : (["um".toList, "uh".toList, "like".toList] : List (List Char)).map lowerL =
        ["um".toList, "uh".toList, "like".toList] := by decide
    have hiff : (defaultFillers.map lowerL).contains (lowerL w) = true ↔
        ((["um".toList, "uh".toList, "like".toList] : List (List Char)).map lowerL).contains
          (lowerL w) = true := by
      rw [h4, h3]
      have hne' : lowerL w ≠ ['y', 'o', 'u', ' ', 'k', 'n', 'o', 'w'] := hne
      simp [defaultFillers, hne']
    have hws' : ∀ w' ∈ ws, ∀ c ∈ w', isSpaceChar c = false :=
      fun w' hw' => hws w' (List.mem_cons_of_mem w hw')
    unfold highlightScan
    by_cases hmem : (defaultFillers.map lowerL).contains (lowerL w) = true
    · rw [if_pos hmem, if_pos (hiff.mp hmem), ih hws' (i + 1)]
    · rw [if_neg hmem, if_neg (fun hc => hmem (hiff.mpr hc)), ih hws' (i + 1)]

/-- C10: `count_fillers` and `compute_highlights` can disagree on the same
transcript with the default filler list: the two-word filler "you know"
never contributes a highlight for any transcript (whitespace-split tokens
contain no space), and on the transcript `"um,"` the filler is counted (1)
but no highlight is emitted, so the number of highlight entries is strictly
below the filler count. -/
theorem c10_highlights_vs_fillers :
    (∀ t : List Char, compute_highlights t defaultFillers =
      compute_highlights t ["um".toList, "uh".toList, "like".toList]) ∧
    count_fillers "um,".toList defaultFillers = 1 ∧
    compute_highlights "um,".toList defaultFillers = [] ∧
    (compute_highlights "um,".toList defaultFillers).length <
      count_fillers "um,".toList defaultFillers := by
  refine ⟨?_, by decide, by decide, by decide⟩
  intro t
  unfold compute_highlights
  by_cases ht : t = []
  · rw [if_pos ht, if_pos ht]
  · rw [if_neg ht, if_neg ht]
    exact highlightScan_drop_youknow (splitWs t) (fun w hw => splitWs_no_space hw) 0
